import Mathlib

/-!
Verification model for the PK-Formula solver (`src/c/pk_formula.c`).

The C code computes with IEEE-754 `double`s.  The model used here is the
idealized extended-real semantics of that arithmetic: a value is either an
exact real number, one of the two infinities, or NaN.  Rounding, overflow,
subnormals and the sign of zero are not modelled; special-value propagation
(NaN, signed infinities, division by zero, the `pow` special cases) follows
IEEE 754 and C99 Annex F.  Pointer arguments are modelled as `Option`s
(a `NULL` pointer is `none`), array reads as `List.getD` with a NaN default
for the out-of-bounds case, and the caller-supplied output locations are
passed in and returned, so the theorems can speak about what each call
writes (and what it leaves untouched).
-/

/-- An idealized IEEE-754 double: NaN, a signed infinity (`inf false` is
`+inf`, `inf true` is `-inf`), or an exact real number. -/
inductive EDouble : Type where
  | nan : EDouble
  | inf : Bool → EDouble
  | fin : ℝ → EDouble

namespace EDouble

noncomputable instance : DecidableEq EDouble :=
  fun a b => Classical.propDecidable (a = b)

/-- IEEE negation. -/
def neg : EDouble → EDouble
  | nan => nan
  | inf s => inf (!s)
  | fin r => fin (-r)

/-- IEEE addition: NaN propagates, opposite infinities give NaN. -/
noncomputable def add : EDouble → EDouble → EDouble
  | nan, _ => nan
  | _, nan => nan
  | inf s, inf t => if s = t then inf s else nan
  | inf s, fin _ => inf s
  | fin _, inf t => inf t
  | fin r, fin q => fin (r + q)

/-- IEEE subtraction, as addition of the negation. -/
noncomputable def sub (x y : EDouble) : EDouble := add x (neg y)

/-- IEEE multiplication: NaN propagates, zero times an infinity is NaN,
otherwise the sign rule applies. -/
noncomputable def mul : EDouble → EDouble → EDouble
  | nan, _ => nan
  | _, nan => nan
  | inf s, inf t => inf (xor s t)
  | inf s, fin r => if r = 0 then nan else if r < 0 then inf (!s) else inf s
  | fin r, inf t => if r = 0 then nan else if r < 0 then inf (!t) else inf t
  | fin r, fin q => fin (r * q)

/-- IEEE division: NaN propagates, `inf/inf` and `0/0` are NaN, a nonzero
finite value divided by (positive) zero is a signed infinity, a finite
value divided by an infinity is zero. -/
noncomputable def div : EDouble → EDouble → EDouble
  | nan, _ => nan
  | _, nan => nan
  | inf _, inf _ => nan
  | inf s, fin r => if r < 0 then inf (!s) else inf s
  | fin _, inf _ => fin 0
  | fin r, fin q =>
      if q = 0 then
        if r = 0 then nan else if r < 0 then inf true else inf false
      else fin (r / q)

/-- C `fabs`: NaN stays NaN, infinities go to `+inf`. -/
noncomputable def abs : EDouble → EDouble
  | nan => nan
  | inf _ => inf false
  | fin r => fin |r|

/-- C `<` comparison, which is false whenever an operand is NaN. -/
noncomputable def ltb : EDouble → EDouble → Bool
  | nan, _ => false
  | _, nan => false
  | inf s, inf t => s && !t
  | inf s, fin _ => s
  | fin _, inf t => !t
  | fin r, fin q => decide (r < q)

/-- Whether a real number is (the embedding of) an integer. -/
def IsInt (q : ℝ) : Prop := ∃ m : ℤ, (m : ℝ) = q

/-- Whether a real number is (the embedding of) an odd integer. -/
def IsOddInt (q : ℝ) : Prop := ∃ m : ℤ, Odd m ∧ (m : ℝ) = q

open Classical in
/-- C99 `pow` on idealized doubles (Annex F.10.4.4, minus signed zero):
`pow(1, y) = 1` and `pow(x, 0) = 1` even for NaN arguments; otherwise NaN
propagates; a finite negative base with a finite non-integer exponent gives
NaN, and with an integer exponent the sign follows the exponent's parity;
a zero base gives `0` or `+inf` by the sign of the exponent; infinite bases
and exponents follow the magnitude rules of Annex F; a finite positive base
with a finite exponent is exact real exponentiation. -/
noncomputable def pow (x y : EDouble) : EDouble :=
  if x = fin 1 then fin 1
  else if y = fin 0 then fin 1
  else
    match x, y with
    | nan, _ => nan
    | _, nan => nan
    | fin r, inf t =>
        if r = -1 then fin 1
        else if |r| < 1 then (if t then inf false else fin 0)
        else (if t then fin 0 else inf false)
    | inf s, fin q =>
        if s then
          if q < 0 then fin 0
          else if IsOddInt q then inf true else inf false
        else
          if q < 0 then fin 0 else inf false
    | inf _, inf t => if t then fin 0 else inf false
    | fin r, fin q =>
        if r < 0 then
          if IsInt q then
            if IsOddInt q then fin (-Real.rpow (-r) q) else fin (Real.rpow (-r) q)
          else nan
        else if r = 0 then (if q < 0 then inf false else fin 0)
        else fin (Real.rpow r q)

/-- A value is special when it is NaN or an infinity (not a finite double). -/
def special : EDouble → Prop
  | fin _ => False
  | _ => True

noncomputable instance : Neg EDouble := ⟨EDouble.neg⟩

noncomputable instance : Add EDouble := ⟨EDouble.add⟩

noncomputable instance : Sub EDouble := ⟨EDouble.sub⟩

noncomputable instance : Mul EDouble := ⟨EDouble.mul⟩

noncomputable instance : Div EDouble := ⟨EDouble.div⟩

end EDouble

/-- Read of `l[i]` for a C array modelled as a list; the out-of-bounds case
(undefined behaviour in C) is modelled as NaN.  Every theorem below keeps the
accesses in bounds. -/
def dref (l : List EDouble) (i : ℕ) : EDouble := l.getD i EDouble.nan

/-- The loop `for (int i = 1; i < n; i++) x[i] = pow(k / a[i], 1.0 / p[i]);`
of `pk_formula`, written with an explicit current index and remaining
iteration count. -/
noncomputable def pkLoop (a p : List EDouble) (k : EDouble) :
    ℕ → ℕ → List EDouble → List EDouble
  | _, 0, x => x
  | i, cnt + 1, x =>
      pkLoop a p k (i + 1) cnt
        (x.set i (EDouble.pow (k / dref a i) (EDouble.fin 1 / dref p i)))

/-- Shallow embedding of `pk_formula` from `pk_formula.c`.  The pointer
arguments are `Option`s (`none` is `NULL`); the current contents of the
caller's output buffer are passed as `x`, and the returned pair carries the
C return code together with the buffer contents after the call (unchanged
on the error paths, which return before writing anything). -/
noncomputable def pk_formula (a p : Option (List EDouble)) (b k : EDouble)
    (n : ℤ) (x : Option (List EDouble)) : ℤ × Option (List EDouble) :=
  if n ≤ 0 then (-1, x)
  else
    match a, p, x with
    | some av, some pv, some xv =>
        (0, some (pkLoop av pv k 1 (n.toNat - 1)
          (xv.set 0 (EDouble.pow
            ((b - EDouble.fin ((n - 1 : ℤ) : ℝ) * k) / dref av 0)
            (EDouble.fin 1 / dref pv 0)))))
    | _, _, _ => (-1, x)

/-- The loop `for (int i = 0; i < n; i++) sum += a[i] * pow(x[i], p[i]);`
of `verify_solution`, with explicit index, count and accumulator. -/
noncomputable def verifyLoop (x a p : List EDouble) :
    ℕ → ℕ → EDouble → EDouble
  | _, 0, s => s
  | i, cnt + 1, s =>
      verifyLoop x a p (i + 1) cnt
        (s + dref a i * EDouble.pow (dref x i) (dref p i))

/-- The fixed tolerance constant `1e-10` of `verify_solution` (exact in the
idealized model). -/
noncomputable def tol : EDouble := EDouble.fin (1 / 10 ^ 10)

/-- Shallow embedding of `verify_solution` from `pk_formula.c`: the returned
pair carries the C return value together with the contents of the caller's
`error` cell after the call (unchanged on the NULL-pointer path, which
returns before writing). -/
noncomputable def verify_solution (x a p : Option (List EDouble)) (b : EDouble)
    (n : ℤ) (error : Option EDouble) : ℤ × Option EDouble :=
  match x, a, p, error with
  | some xv, some av, some pv, some _ =>
      (if (EDouble.abs (verifyLoop xv av pv 0 n.toNat (EDouble.fin 0) - b)).ltb tol
       then 1 else 0,
       some (EDouble.abs (verifyLoop xv av pv 0 n.toNat (EDouble.fin 0) - b)))
  | _, _, _, _ => (0, error)

namespace EDouble

@[simp] theorem fin_add_fin (r q : ℝ) : fin r + fin q = fin (r + q) := rfl

@[simp] theorem nan_add (x : EDouble) : nan + x = nan := by cases x <;> rfl

@[simp] theorem add_nan (x : EDouble) : x + nan = nan := by cases x <;> rfl

@[simp] theorem fin_sub_fin (r q : ℝ) : fin r - fin q = fin (r - q) := by
  show fin (r + -q) = fin (r - q)
  rw [sub_eq_add_neg]

@[simp] theorem nan_sub (x : EDouble) : nan - x = nan := by cases x <;> rfl

@[simp] theorem sub_nan (x : EDouble) : x - nan = nan := by cases x <;> rfl

@[simp] theorem sub_fin_zero (x : EDouble) : x - fin 0 = x := by
  cases x with
  | nan => rfl
  | inf s => rfl
  | fin r => rw [fin_sub_fin, sub_zero]

@[simp] theorem fin_mul_fin (r q : ℝ) : fin r * fin q = fin (r * q) := rfl

@[simp] theorem nan_mul (x : EDouble) : nan * x = nan := by cases x <;> rfl

@[simp] theorem mul_nan (x : EDouble) : x * nan = nan := by cases x <;> rfl

theorem fin_zero_mul_inf (t : Bool) : fin 0 * inf t = nan := by
  show mul (fin 0) (inf t) = nan
  simp [mul]

@[simp] theorem nan_div (x : EDouble) : nan / x = nan := by cases x <;> rfl

@[simp] theorem div_nan (x : EDouble) : x / nan = nan := by cases x <;> rfl

theorem fin_div_fin (r : ℝ) {q : ℝ} (hq : q ≠ 0) : fin r / fin q = fin (r / q) := by
  show div (fin r) (fin q) = fin (r / q)
  simp [div, hq]

theorem fin_div_fin_zero_pos {r : ℝ} (hr : 0 < r) : fin r / fin 0 = inf false := by
  show div (fin r) (fin 0) = inf false
  simp [div, hr.ne', not_lt.mpr hr.le]

@[simp] theorem abs_nan : abs nan = nan := rfl

@[simp] theorem abs_inf (s : Bool) : abs (inf s) = inf false := rfl

@[simp] theorem abs_fin (r : ℝ) : abs (fin r) = fin |r| := rfl

@[simp] theorem ltb_nan_left (y : EDouble) : ltb nan y = false := by cases y <;> rfl

@[simp] theorem ltb_nan_right (x : EDouble) : ltb x nan = false := by cases x <;> rfl

@[simp] theorem ltb_fin_fin (r q : ℝ) : ltb (fin r) (fin q) = decide (r < q) := rfl

theorem pow_one_base (y : EDouble) : pow (fin 1) y = fin 1 := by
  simp [pow]

theorem pow_zero_exp (x : EDouble) : pow x (fin 0) = fin 1 := by
  by_cases hx : x = fin 1 <;> simp [pow, hx]

theorem pow_nan_base {y : EDouble} (hy : y ≠ fin 0) : pow nan y = nan := by
  cases y <;> simp_all [pow]

theorem pow_nan_exp {x : EDouble} (hx : x ≠ fin 1) : pow x nan = nan := by
  cases x <;> simp_all [pow]

theorem pow_fin_fin_of_pos {r : ℝ} (hr : 0 < r) (q : ℝ) :
    pow (fin r) (fin q) = fin (r ^ q) := by
  by_cases hr1 : r = 1
  · subst hr1
    simp [pow, Real.one_rpow]
  · by_cases hq : q = 0
    · subst hq
      simp [pow, Real.rpow_zero, hr1]
    · simp [pow, hr1, hq, not_lt.mpr hr.le, hr.ne']

theorem pow_fin_neg_nonint {r q : ℝ} (hr : r < 0) (hq : q ≠ 0) (hqi : ¬IsInt q) :
    pow (fin r) (fin q) = nan := by
  have hr1 : r ≠ 1 := by linarith
  simp [pow, hr1, hq, hr, hqi]

theorem pow_fin_zero_base_pos {q : ℝ} (hq : 0 < q) :
    pow (fin 0) (fin q) = fin 0 := by
  simp [pow, hq.ne', not_lt.mpr hq.le, (by norm_num : (0 : ℝ) ≠ 1)]

theorem pow_fin_zero_base_neg {q : ℝ} (hq : q < 0) :
    pow (fin 0) (fin q) = inf false := by
  simp [pow, hq, hq.ne, (by norm_num : (0 : ℝ) ≠ 1)]

theorem pow_pinf_fin_neg {q : ℝ} (hq : q < 0) :
    pow (inf false) (fin q) = fin 0 := by
  simp [pow, hq, hq.ne]

theorem pow_pinf_fin_pos {q : ℝ} (hq : 0 < q) :
    pow (inf false) (fin q) = inf false := by
  simp [pow, hq.ne', not_lt.mpr hq.le]

theorem pow_fin_pinf_small {r : ℝ} (h : |r| < 1) :
    pow (fin r) (inf false) = fin 0 := by
  rw [abs_lt] at h
  have h1 : r ≠ 1 := by linarith [h.2]
  have h2 : r ≠ -1 := by linarith [h.1]
  simp [pow, h1, h2, abs_lt.mpr h]

end EDouble

theorem dref_eq_of_getElem? {l : List EDouble} {i : ℕ} {v : EDouble}
    (h : l[i]? = some v) : dref l i = v := by
  simp [dref, List.getD_eq_getElem?_getD, h]

theorem dref_map_fin {l : List ℝ} {i : ℕ} (h : i < l.length) :
    dref (l.map EDouble.fin) i = EDouble.fin (l.getD i 0) := by
  simp [dref, List.getD_eq_getElem?_getD, List.getElem?_eq_getElem h,
    List.getElem?_eq_getElem (by simpa using h : i < (l.map EDouble.fin).length)]

theorem pkLoop_length (a p : List EDouble) (k : EDouble) (cnt : ℕ) :
    ∀ (i : ℕ) (x : List EDouble), (pkLoop a p k i cnt x).length = x.length := by
  induction cnt with
  | zero => intro i x; rfl
  | succ m ih =>
      intro i x
      simp only [pkLoop]
      rw [ih]
      simp

theorem pkLoop_getElem? (a p : List EDouble) (k : EDouble) (cnt : ℕ) :
    ∀ (i : ℕ) (x : List EDouble) (j : ℕ),
      (pkLoop a p k i cnt x)[j]? =
        if i ≤ j ∧ j < i + cnt ∧ j < x.length
        then some (EDouble.pow (k / dref a j) (EDouble.fin 1 / dref p j))
        else x[j]? := by
  induction cnt with
  | zero =>
      intro i x j
      rw [if_neg (by omega)]
      rfl
  | succ m ih =>
      intro i x j
      simp only [pkLoop]
      rw [ih]
      by_cases hij : j = i
      · subst hij
        rw [if_neg (by omega), List.getElem?_set_self']
        by_cases hl : j < x.length
        · rw [if_pos (by omega), List.getElem?_eq_getElem hl]
          rfl
        · rw [if_neg (by omega), List.getElem?_eq_none (by omega)]
          rfl
      · rw [List.getElem?_set_ne (fun h => hij h.symm), List.length_set]
        by_cases hc : i ≤ j ∧ j < i + (m + 1) ∧ j < x.length
        · rw [if_pos (by omega), if_pos hc]
        · rw [if_neg (by omega), if_neg hc]

theorem verifyLoop_fin (x a p : List EDouble) (t : ℕ → ℝ) (cnt : ℕ) :
    ∀ (i : ℕ) (c : ℝ),
      (∀ j, i ≤ j → j < i + cnt →
        dref a j * EDouble.pow (dref x j) (dref p j) = EDouble.fin (t j)) →
      verifyLoop x a p i cnt (EDouble.fin c) =
        EDouble.fin (c + ∑ j ∈ Finset.range cnt, t (i + j)) := by
  induction cnt with
  | zero =>
      intro i c _
      simp [verifyLoop]
  | succ m ih =>
      intro i c h
      simp only [verifyLoop]
      rw [h i (le_refl i) (by omega), EDouble.fin_add_fin,
        ih (i + 1) (c + t i) (fun j h1 h2 => h j (by omega) (by omega))]
      congr 1
      rw [Finset.sum_range_succ']
      have h2 : ∀ j, i + 1 + j = i + (j + 1) := fun j => by omega
      simp only [h2, add_zero]
      ring

theorem verifyLoop_eq_foldl (x a p : List EDouble) (cnt : ℕ) :
    ∀ (i : ℕ) (s : EDouble),
      verifyLoop x a p i cnt s =
        ((List.range' i cnt).map
          (fun j => dref a j * EDouble.pow (dref x j) (dref p j))).foldl
          (fun u v => u + v) s := by
  induction cnt with
  | zero => intro i s; rfl
  | succ m ih =>
      intro i s
      rw [List.range'_succ]
      simp only [List.map_cons, List.foldl_cons, verifyLoop]
      exact ih (i + 1) _

theorem abs_fin_zero_sub (b : EDouble) : (EDouble.fin 0 - b).abs = b.abs := by
  cases b with
  | nan => rfl
  | inf s => cases s <;> rfl
  | fin r =>
      rw [EDouble.fin_sub_fin]
      simp

theorem pow_pow_inv_of_nonneg {y q : ℝ} (hy : 0 ≤ y) (hq : q ≠ 0) :
    EDouble.pow (EDouble.pow (EDouble.fin y) (EDouble.fin 1 / EDouble.fin q))
      (EDouble.fin q) = EDouble.fin y := by
  rw [EDouble.fin_div_fin 1 hq]
  rcases lt_or_eq_of_le hy with hy0 | hy0
  · rw [EDouble.pow_fin_fin_of_pos hy0,
      EDouble.pow_fin_fin_of_pos (Real.rpow_pos_of_pos hy0 _),
      ← Real.rpow_mul hy0.le, one_div_mul_cancel hq, Real.rpow_one]
  · rcases lt_trichotomy (1 / q) 0 with hq0 | hq0 | hq0
    · rw [← hy0, EDouble.pow_fin_zero_base_neg hq0,
        EDouble.pow_pinf_fin_neg (one_div_neg.mp hq0)]
    · exact absurd hq0 (one_div_ne_zero hq)
    · rw [← hy0, EDouble.pow_fin_zero_base_pos hq0,
        EDouble.pow_fin_zero_base_pos (one_div_pos.mp hq0)]

theorem ite_eq_one_iff (c : Bool) :
    ((if c = true then (1 : ℤ) else 0) = 1) ↔ c = true := by
  cases c <;> simp

/-- C6: for every `n <= 0`, `pk_formula` returns the error discriminant `-1`
regardless of the other arguments, and the caller-supplied output buffer is
left exactly as it was: no element of `x` is written. -/
theorem c6_invalid_size (a p : Option (List EDouble)) (b k : EDouble) (n : ℤ)
    (x : Option (List EDouble)) (hn : n ≤ 0) :
    pk_formula a p b k n x = (-1, x) := by
  simp [pk_formula, hn]

theorem c6_invalid_size_witness :
    pk_formula (some [EDouble.fin 1]) (some [EDouble.fin 2]) (EDouble.fin 3)
      (EDouble.fin 4) 0 (some [EDouble.fin 5]) = (-1, some [EDouble.fin 5]) :=
  c6_invalid_size _ _ _ _ _ _ (by norm_num)

/-- C7: `pk_formula` returns `-1` whenever any of `a`, `p`, `x` is NULL, with
the output buffer untouched; and `verify_solution` returns `0` whenever any
of `x`, `a`, `p`, `error` is NULL, with the error cell untouched. -/
theorem c7_null_input :
    (∀ (a p : Option (List EDouble)) (b k : EDouble) (n : ℤ)
        (x : Option (List EDouble)),
        a = none ∨ p = none ∨ x = none → pk_formula a p b k n x = (-1, x)) ∧
    (∀ (x a p : Option (List EDouble)) (b : EDouble) (n : ℤ)
        (e : Option EDouble),
        x = none ∨ a = none ∨ p = none ∨ e = none →
          verify_solution x a p b n e = (0, e)) := by
  constructor
  · intro a p b k n x h
    by_cases hn : n ≤ 0
    · simp [pk_formula, hn]
    · cases a <;> cases p <;> cases x <;> simp_all [pk_formula, hn]
  · intro x a p b n e h
    cases x <;> cases a <;> cases p <;> cases e <;> simp_all [verify_solution]

theorem c7_null_input_witness :
    pk_formula none (some [EDouble.fin 1]) (EDouble.fin 2) (EDouble.fin 3) 1
        (some [EDouble.fin 4]) = (-1, some [EDouble.fin 4]) ∧
    verify_solution (some [EDouble.fin 1]) (some [EDouble.fin 1])
        (some [EDouble.fin 1]) (EDouble.fin 0) 1 none = (0, none) :=
  ⟨c7_null_input.1 _ _ _ _ _ _ (Or.inl rfl),
   c7_null_input.2 _ _ _ _ _ _ (Or.inr (Or.inr (Or.inr rfl)))⟩

/-- C9: `verify_solution` does not validate `n`.  For `n <= 0` with non-NULL
pointers the loop runs zero times, so the call writes `|b|` into the error
cell and returns `1` exactly when `|b| < 1e-10`. -/
theorem c9_verify_no_size_check (xv av pv : List EDouble) (b : EDouble)
    (n : ℤ) (e0 : EDouble) (hn : n ≤ 0) :
    verify_solution (some xv) (some av) (some pv) b n (some e0) =
      (if (EDouble.abs b).ltb tol then 1 else 0, some (EDouble.abs b)) ∧
    ((verify_solution (some xv) (some av) (some pv) b n (some e0)).1 = 1 ↔
      (EDouble.abs b).ltb tol = true) := by
  have h0 : n.toNat = 0 := by omega
  have hloop : verifyLoop xv av pv 0 n.toNat (EDouble.fin 0) = EDouble.fin 0 := by
    rw [h0]
    rfl
  refine ⟨?_, ?_⟩
  · simp only [verify_solution, hloop, abs_fin_zero_sub]
  · simp only [verify_solution, hloop, abs_fin_zero_sub]
    exact ite_eq_one_iff _

theorem c9_verify_no_size_check_witness :
    verify_solution (some [EDouble.fin 1]) (some [EDouble.fin 1])
        (some [EDouble.fin 1]) (EDouble.fin 0) 0 (some (EDouble.fin 9)) =
      (if (EDouble.abs (EDouble.fin 0)).ltb tol then 1 else 0,
       some (EDouble.abs (EDouble.fin 0))) ∧
    (verify_solution (some [EDouble.fin 1]) (some [EDouble.fin 1])
        (some [EDouble.fin 1]) (EDouble.fin 0) 0 (some (EDouble.fin 9))).1 = 1 :=
  have h := c9_verify_no_size_check [EDouble.fin 1] [EDouble.fin 1]
    [EDouble.fin 1] (EDouble.fin 0) 0 (EDouble.fin 9) (by norm_num)
  ⟨h.1, h.2.mpr (by
    simp only [EDouble.abs_fin, abs_zero, tol, EDouble.ltb_fin_fin]
    exact decide_eq_true (by norm_num))⟩

/-- C10: when any pointer argument of `verify_solution` is NULL the function
returns `0` — the same value as for a well-formed but out-of-tolerance
solution — and leaves the caller's error cell unwritten; a concrete
well-formed out-of-tolerance call indeed returns `0` (while writing the
error). -/
theorem c10_verify_null_indistinguishable :
    (∀ (x a p : Option (List EDouble)) (b : EDouble) (n : ℤ)
        (e : Option EDouble),
        x = none ∨ a = none ∨ p = none ∨ e = none →
          verify_solution x a p b n e = (0, e)) ∧
    verify_solution (some [EDouble.fin 1]) (some [EDouble.fin 1])
        (some [EDouble.fin 1]) (EDouble.fin 3) 1 (some (EDouble.fin 7)) =
      (0, some (EDouble.fin 2)) := by
  constructor
  · intro x a p b n e h
    cases x <;> cases a <;> cases p <;> cases e <;> simp_all [verify_solution]
  · have hloop : verifyLoop [EDouble.fin 1] [EDouble.fin 1] [EDouble.fin 1]
        0 (Int.toNat 1) (EDouble.fin 0) = EDouble.fin 1 := by
      simp only [Int.toNat_one, verifyLoop, dref, List.getD_cons_zero,
        EDouble.pow_one_base, EDouble.fin_mul_fin, EDouble.fin_add_fin]
      norm_num
    simp only [verify_solution, hloop, EDouble.fin_sub_fin, EDouble.abs_fin,
      tol, EDouble.ltb_fin_fin]
    norm_num

theorem c10_verify_null_indistinguishable_witness :
    verify_solution none (some [EDouble.fin 1]) (some [EDouble.fin 1])
        (EDouble.fin 3) 1 (some (EDouble.fin 7)) = (0, some (EDouble.fin 7)) ∧
    verify_solution (some [EDouble.fin 1]) (some [EDouble.fin 1])
        (some [EDouble.fin 1]) (EDouble.fin 3) 1 (some (EDouble.fin 7)) =
      (0, some (EDouble.fin 2)) :=
  ⟨c10_verify_null_indistinguishable.1 _ _ _ _ _ _ (Or.inl rfl),
   c10_verify_null_indistinguishable.2⟩

/-- C1: for every `n >= 1` and non-NULL arrays of length `n`, `pk_formula`
returns `0` and writes exactly `x[0] = pow((b - (n-1)*k) / a[0], 1/p[0])`
and, for `1 <= i < n`, `x[i] = pow(k / a[i], 1/p[i])` (the buffer has length
`n`, so nothing else is written). -/
theorem c1_pk_formula_functional (av pv xv : List EDouble) (b k : EDouble)
    (n : ℤ) (hn : 1 ≤ n) (ha : av.length = n.toNat) (hp : pv.length = n.toNat)
    (hx : xv.length = n.toNat) :
    (pk_formula (some av) (some pv) b k n (some xv)).1 = 0 ∧
    ∃ xw, (pk_formula (some av) (some pv) b k n (some xv)).2 = some xw ∧
      xw.length = n.toNat ∧
      xw[0]? = some (EDouble.pow
        ((b - EDouble.fin ((n - 1 : ℤ) : ℝ) * k) / dref av 0)
        (EDouble.fin 1 / dref pv 0)) ∧
      ∀ i : ℕ, 1 ≤ i → i < n.toNat →
        xw[i]? = some (EDouble.pow (k / dref av i) (EDouble.fin 1 / dref pv i)) := by
  have hn' : ¬n ≤ 0 := by omega
  have hnt : 1 ≤ n.toNat := by omega
  simp only [pk_formula, if_neg hn']
  refine ⟨trivial, _, rfl, ?_, ?_, ?_⟩
  · rw [pkLoop_length, List.length_set, hx]
  · rw [pkLoop_getElem?, if_neg (by omega),
      List.getElem?_set_self (by omega : 0 < xv.length)]
  · intro i h1 h2
    rw [pkLoop_getElem?,
      if_pos ⟨h1, by omega, by rw [List.length_set]; omega⟩]

theorem c1_pk_formula_functional_witness :
    (pk_formula (some [EDouble.fin 1, EDouble.fin 1])
        (some [EDouble.fin 2, EDouble.fin 2]) (EDouble.fin 25) (EDouble.fin 2)
        2 (some [EDouble.fin 0, EDouble.fin 0])).1 = 0 ∧
    ∃ xw, (pk_formula (some [EDouble.fin 1, EDouble.fin 1])
        (some [EDouble.fin 2, EDouble.fin 2]) (EDouble.fin 25) (EDouble.fin 2)
        2 (some [EDouble.fin 0, EDouble.fin 0])).2 = some xw ∧
      xw.length = (2 : ℤ).toNat ∧
      xw[0]? = some (EDouble.pow
        ((EDouble.fin 25 - EDouble.fin (((2 : ℤ) - 1 : ℤ) : ℝ) * EDouble.fin 2) /
          dref [EDouble.fin 1, EDouble.fin 1] 0)
        (EDouble.fin 1 / dref [EDouble.fin 2, EDouble.fin 2] 0)) ∧
      ∀ i : ℕ, 1 ≤ i → i < (2 : ℤ).toNat →
        xw[i]? = some (EDouble.pow
          (EDouble.fin 2 / dref [EDouble.fin 1, EDouble.fin 1] i)
          (EDouble.fin 1 / dref [EDouble.fin 2, EDouble.fin 2] i)) :=
  c1_pk_formula_functional [EDouble.fin 1, EDouble.fin 1]
    [EDouble.fin 2, EDouble.fin 2] [EDouble.fin 0, EDouble.fin 0]
    (EDouble.fin 25) (EDouble.fin 2) 2 (by norm_num) rfl rfl rfl

/-- The constraint sum of `verify_solution`, written as the left-to-right
fold over `i < m` of the terms `a[i] * pow(x[i], p[i])`. -/
noncomputable def constraintSum (xv av pv : List EDouble) (m : ℕ) : EDouble :=
  ((List.range m).map
    (fun i => dref av i * EDouble.pow (dref xv i) (dref pv i))).foldl
    (fun u v => u + v) (EDouble.fin 0)

/-- C2: for `n >= 1` and non-NULL length-`n` arrays and a non-NULL error
pointer, `verify_solution` computes the sum of `a[i] * pow(x[i], p[i])` over
`i < n`, writes `|sum - b|` into the error cell, and returns `1` exactly
when that error is below the fixed tolerance `1e-10`. -/
theorem c2_verify_solution_functional (xv av pv : List EDouble) (b : EDouble)
    (n : ℤ) (e0 : EDouble) (hn : 1 ≤ n) (hx : xv.length = n.toNat)
    (ha : av.length = n.toNat) (hp : pv.length = n.toNat) :
    verify_solution (some xv) (some av) (some pv) b n (some e0) =
      (if (EDouble.abs (constraintSum xv av pv n.toNat - b)).ltb tol then 1
       else 0,
       some (EDouble.abs (constraintSum xv av pv n.toNat - b))) ∧
    ((verify_solution (some xv) (some av) (some pv) b n (some e0)).1 = 1 ↔
      (EDouble.abs (constraintSum xv av pv n.toNat - b)).ltb tol = true) := by
  have hsum : verifyLoop xv av pv 0 n.toNat (EDouble.fin 0) =
      constraintSum xv av pv n.toNat := by
    rw [verifyLoop_eq_foldl, constraintSum, List.range_eq_range']
  refine ⟨?_, ?_⟩
  · simp only [verify_solution, hsum]
  · simp only [verify_solution, hsum]
    exact ite_eq_one_iff _

theorem c2_verify_solution_functional_witness :
    verify_solution (some [EDouble.fin 1]) (some [EDouble.fin 1])
        (some [EDouble.fin 1]) (EDouble.fin 1) 1 (some (EDouble.fin 5)) =
      (if (EDouble.abs (constraintSum [EDouble.fin 1] [EDouble.fin 1]
          [EDouble.fin 1] (Int.toNat 1) - EDouble.fin 1)).ltb tol then 1
       else 0,
       some (EDouble.abs (constraintSum [EDouble.fin 1] [EDouble.fin 1]
          [EDouble.fin 1] (Int.toNat 1) - EDouble.fin 1))) :=
  (c2_verify_solution_functional [EDouble.fin 1] [EDouble.fin 1]
    [EDouble.fin 1] (EDouble.fin 1) 1 (EDouble.fin 5) (by norm_num)
    rfl rfl rfl).1

/-- C4, counterexample: with `n = 1`, `a = [1]`, `p = [1]`, `b = 2` and
`k = +inf`, the code computes `b - (n-1)*k = 2 - 0*inf = NaN` and writes
`x[0] = NaN`, which differs from `pow(b / a[0], 1/p[0]) = 2`; so the claim
does not hold for every value of `k`. -/
theorem c4_single_variable_counterexample :
    (pk_formula (some [EDouble.fin 1]) (some [EDouble.fin 1]) (EDouble.fin 2)
      (EDouble.inf false) 1 (some [EDouble.fin 0])).2 = some [EDouble.nan] ∧
    EDouble.nan ≠ EDouble.pow (EDouble.fin 2 / EDouble.fin 1)
      (EDouble.fin 1 / EDouble.fin 1) := by
  constructor
  · have h1 : EDouble.fin (((1 : ℤ) - 1 : ℤ) : ℝ) = EDouble.fin 0 := by
      norm_num
    have h2 : EDouble.fin 0 * EDouble.inf false = EDouble.nan :=
      EDouble.fin_zero_mul_inf false
    simp only [pk_formula, h1, h2]
    norm_num [dref, EDouble.pow_nan_base, pkLoop,
      EDouble.fin_div_fin (1 : ℝ) (one_ne_zero (α := ℝ))]
  · rw [EDouble.fin_div_fin 2 (one_ne_zero (α := ℝ)),
      EDouble.fin_div_fin 1 (one_ne_zero (α := ℝ))]
    norm_num
    rw [EDouble.pow_fin_fin_of_pos (by norm_num : (0:ℝ) < 2)]
    simp [Real.rpow_one]

/-- C4, amended: for `n = 1` and any FINITE `k` (k = Inf or NaN instead
yields `x[0] = NaN`, because `(n-1)*k = 0*k` is NaN for nonfinite `k`),
`pk_formula` succeeds and writes the single element
`x[0] = pow(b / a[0], 1/p[0])`; the loop for `i in 1..n` is not executed. -/
theorem c4_single_variable_amended (a0 p0 b : EDouble) (k : ℝ)
    (xv : List EDouble) (hx : xv.length = 1) :
    pk_formula (some [a0]) (some [p0]) b (EDouble.fin k) 1 (some xv) =
      (0, some [EDouble.pow (b / a0) (EDouble.fin 1 / p0)]) := by
  obtain ⟨c, rfl⟩ := List.length_eq_one.mp hx
  have h1 : EDouble.fin (((1 : ℤ) - 1 : ℤ) : ℝ) = EDouble.fin 0 := by
    norm_num
  have h2 : b - EDouble.fin 0 * EDouble.fin k = b := by
    rw [EDouble.fin_mul_fin, zero_mul, EDouble.sub_fin_zero]
  simp only [pk_formula, h1, h2]
  norm_num
  rfl

theorem c4_single_variable_amended_witness :
    pk_formula (some [EDouble.fin 1]) (some [EDouble.fin 1]) (EDouble.fin 2)
        (EDouble.fin 0) 1 (some [EDouble.fin 9]) =
      (0, some [EDouble.pow (EDouble.fin 2 / EDouble.fin 1)
        (EDouble.fin 1 / EDouble.fin 1)]) :=
  c4_single_variable_amended (EDouble.fin 1) (EDouble.fin 1) (EDouble.fin 2)
    0 [EDouble.fin 9] rfl

theorem not_isInt_half : ¬EDouble.IsInt ((1 : ℝ) / 2) := by
  rintro ⟨m, hm⟩
  have h1 : ((2 * m : ℤ) : ℝ) = ((1 : ℤ) : ℝ) := by push_cast; linarith
  have h2 : (2 * m : ℤ) = 1 := Int.cast_injective h1
  omega

/-- C5, counterexample: with `n = 1`, `a = [1]`, `p = [2]`, `b = -1`, `k = 0`
the radicand `(b - (n-1)*k)/a[0] = -1` is negative, so
`x[0] = pow(-1, 1/2) = NaN` and `a[0] * pow(x[0], p[0]) = NaN`, which is not
equal to `b - (n-1)*k = -1`; the claimed identity fails although `a[0]` and
`p[0]` are nonzero. -/
theorem c5_residual_absorption_counterexample :
    (pk_formula (some [EDouble.fin 1]) (some [EDouble.fin 2])
      (EDouble.fin (-1)) (EDouble.fin 0) 1 (some [EDouble.fin 0])).2 =
      some [EDouble.nan] ∧
    dref [EDouble.fin 1] 0 * EDouble.pow (dref [EDouble.nan] 0)
        (dref [EDouble.fin 2] 0) ≠
      EDouble.fin (-1) - EDouble.fin (((1 : ℤ) - 1 : ℤ) : ℝ) * EDouble.fin 0 := by
  constructor
  · have hm : EDouble.fin (((1 : ℤ) - 1 : ℤ) : ℝ) = EDouble.fin 0 := by norm_num
    have hv : EDouble.pow
        ((EDouble.fin (-1) - EDouble.fin 0 * EDouble.fin 0) /
          dref [EDouble.fin 1] 0)
        (EDouble.fin 1 / dref [EDouble.fin 2] 0) = EDouble.nan := by
      simp only [dref, List.getD_cons_zero, EDouble.fin_mul_fin, mul_zero,
        EDouble.sub_fin_zero]
      rw [EDouble.fin_div_fin _ (one_ne_zero (α := ℝ)),
        EDouble.fin_div_fin _ (two_ne_zero (α := ℝ))]
      norm_num
      exact EDouble.pow_fin_neg_nonint (by norm_num) (by norm_num) not_isInt_half
    simp only [pk_formula, hm, hv]
    norm_num [pkLoop]
  · simp only [dref, List.getD_cons_zero]
    rw [EDouble.pow_nan_base (by simp), EDouble.mul_nan]
    have hm : EDouble.fin (((1 : ℤ) - 1 : ℤ) : ℝ) = EDouble.fin 0 := by norm_num
    rw [hm, EDouble.fin_mul_fin, zero_mul, EDouble.sub_fin_zero]
    simp

/-- C5, amended: for finite inputs with `n >= 1`, non-NULL length-`n` arrays,
`a[0] != 0`, `p[0] != 0` AND a nonnegative radicand `(b - (n-1)*k)/a[0]`
(for a negative radicand the power is NaN and the identity fails), the first
component written by `pk_formula` satisfies
`a[0] * pow(x[0], p[0]) = b - (n-1)*k` exactly. -/
theorem c5_residual_absorption_amended (la lp : List ℝ) (b k : ℝ) (n : ℤ)
    (xv : List EDouble) (hn : 1 ≤ n) (hla : la.length = n.toNat)
    (hlp : lp.length = n.toNat) (hx : xv.length = n.toNat)
    (ha0 : la.getD 0 0 ≠ 0) (hp0 : lp.getD 0 0 ≠ 0)
    (hrad : 0 ≤ (b - ((n - 1 : ℤ) : ℝ) * k) / la.getD 0 0) :
    ∃ xw, (pk_formula (some (la.map EDouble.fin)) (some (lp.map EDouble.fin))
        (EDouble.fin b) (EDouble.fin k) n (some xv)).2 = some xw ∧
      dref (la.map EDouble.fin) 0 * EDouble.pow (dref xw 0)
          (dref (lp.map EDouble.fin) 0) =
        EDouble.fin b - EDouble.fin ((n - 1 : ℤ) : ℝ) * EDouble.fin k := by
  have hn' : ¬n ≤ 0 := by omega
  have h0a : (0 : ℕ) < la.length := by omega
  have h0x : (0 : ℕ) < xv.length := by omega
  have h0p : (0 : ℕ) < lp.length := by omega
  have hda : dref (la.map EDouble.fin) 0 = EDouble.fin (la.getD 0 0) :=
    dref_map_fin h0a
  have hdp : dref (lp.map EDouble.fin) 0 = EDouble.fin (lp.getD 0 0) :=
    dref_map_fin h0p
  simp only [pk_formula, if_neg hn']
  refine ⟨_, rfl, ?_⟩
  rw [hda, hdp]
  rw [dref_eq_of_getElem? (by
    rw [pkLoop_getElem?, if_neg (by omega), List.getElem?_set_self h0x])]
  rw [EDouble.fin_mul_fin, EDouble.fin_sub_fin,
    EDouble.fin_div_fin _ ha0, pow_pow_inv_of_nonneg hrad hp0,
    EDouble.fin_mul_fin]
  congr 1
  rw [mul_comm, div_mul_cancel₀ _ ha0]

theorem c5_residual_absorption_amended_witness :
    ∃ xw, (pk_formula (some (List.map EDouble.fin [2]))
        (some (List.map EDouble.fin [3]))
        (EDouble.fin 16) (EDouble.fin 0) 1 (some [EDouble.fin 0])).2 =
        some xw ∧
      dref (List.map EDouble.fin [2]) 0 * EDouble.pow (dref xw 0)
          (dref (List.map EDouble.fin [3]) 0) =
        EDouble.fin 16 - EDouble.fin (((1 : ℤ) - 1 : ℤ) : ℝ) * EDouble.fin 0 :=
  c5_residual_absorption_amended [2] [3] 16 0 1 [EDouble.fin 0] (by norm_num)
    rfl rfl rfl (by norm_num) (by norm_num) (by norm_num)

/-- C8, counterexample: with `a = [1,2]`, `p = [2,0]`, `b = 1`, `k = 1`,
`n = 2` the zero exponent `p[1] = 0` gives `1/p[1] = +inf` and
`x[1] = pow(1/2, +inf) = +0`, a FINITE value, so the affected component does
not hold an IEEE Inf or NaN (the call still succeeds, returning 0). -/
theorem c8_degeneracy_counterexample :
    pk_formula (some [EDouble.fin 1, EDouble.fin 2])
        (some [EDouble.fin 2, EDouble.fin 0]) (EDouble.fin 1) (EDouble.fin 1) 2
        (some [EDouble.fin 0, EDouble.fin 0]) =
      (0, some [EDouble.fin 0, EDouble.fin 0]) ∧
    ¬EDouble.special (EDouble.fin 0) := by
  constructor
  · have hm : EDouble.fin (((2 : ℤ) - 1 : ℤ) : ℝ) = EDouble.fin 1 := by norm_num
    have hv0 : EDouble.pow
        ((EDouble.fin 1 - EDouble.fin 1 * EDouble.fin 1) /
          dref [EDouble.fin 1, EDouble.fin 2] 0)
        (EDouble.fin 1 / dref [EDouble.fin 2, EDouble.fin 0] 0) =
        EDouble.fin 0 := by
      simp only [dref, List.getD_cons_zero, EDouble.fin_mul_fin,
        EDouble.fin_sub_fin]
      rw [EDouble.fin_div_fin _ (one_ne_zero (α := ℝ)),
        EDouble.fin_div_fin _ (two_ne_zero (α := ℝ))]
      norm_num
      exact EDouble.pow_fin_zero_base_pos (by norm_num)
    have hv1 : EDouble.pow
        (EDouble.fin 1 / dref [EDouble.fin 1, EDouble.fin 2] 1)
        (EDouble.fin 1 / dref [EDouble.fin 2, EDouble.fin 0] 1) =
        EDouble.fin 0 := by
      simp only [dref, List.getD_cons_succ, List.getD_cons_zero]
      rw [EDouble.fin_div_fin _ (two_ne_zero (α := ℝ)),
        EDouble.fin_div_fin_zero_pos one_pos]
      exact EDouble.pow_fin_pinf_small (by rw [abs_of_pos] <;> norm_num)
    simp only [pk_formula, hm, hv0]
    norm_num [pkLoop, hv1]
  · exact fun h => h

/-- C8, amended: numeric degeneracies (`a[i] = 0`, `p[i] = 0`, negative
radicands) are not errors: `pk_formula` returns success `0` for every
`n >= 1` with non-NULL arguments, whatever values the arrays hold — the
affected components carry the IEEE-propagated value, which is typically Inf
or NaN but can also be finite (e.g. `pow(1/2, +inf) = 0`); and whenever the
recomputed sum in `verify_solution` is NaN the validity flag is `0`, since
`NaN < 1e-10` is false. -/
theorem c8_degeneracy_amended :
    (∀ (av pv xv : List EDouble) (b k : EDouble) (n : ℤ), 1 ≤ n →
        (pk_formula (some av) (some pv) b k n (some xv)).1 = 0) ∧
    (∀ (xv av pv : List EDouble) (b : EDouble) (n : ℤ) (e0 : EDouble),
        verifyLoop xv av pv 0 n.toNat (EDouble.fin 0) = EDouble.nan →
          (verify_solution (some xv) (some av) (some pv) b n (some e0)).1 = 0) := by
  constructor
  · intro av pv xv b k n hn
    simp [pk_formula, show ¬n ≤ 0 by omega]
  · intro xv av pv b n e0 h
    simp only [verify_solution, h, EDouble.nan_sub, EDouble.abs_nan,
      EDouble.ltb_nan_left]
    norm_num

theorem c8_degeneracy_amended_witness :
    (pk_formula (some [EDouble.fin 0]) (some [EDouble.fin 0]) (EDouble.fin 1)
        (EDouble.fin 1) 1 (some [EDouble.fin 0])).1 = 0 ∧
    (verify_solution (some [EDouble.nan]) (some [EDouble.fin 1])
        (some [EDouble.fin 1]) (EDouble.fin 1) 1 (some (EDouble.fin 0))).1 = 0 :=
  ⟨c8_degeneracy_amended.1 [EDouble.fin 0] [EDouble.fin 0] [EDouble.fin 0]
      (EDouble.fin 1) (EDouble.fin 1) 1 (by norm_num),
   c8_degeneracy_amended.2 [EDouble.nan] [EDouble.fin 1] [EDouble.fin 1]
      (EDouble.fin 1) 1 (EDouble.fin 0) (by
        show verifyLoop _ _ _ 0 (Int.toNat 1) _ = _
        simp only [Int.toNat_one, verifyLoop, dref, List.getD_cons_zero]
        rw [EDouble.pow_nan_base (by simp), EDouble.mul_nan, EDouble.add_nan])⟩

theorem pk_formula_output (av pv : List EDouble) (b k : EDouble) (n : ℤ)
    (xv : List EDouble) (hn : 1 ≤ n) (hx : xv.length = n.toNat) :
    ∃ xw, (pk_formula (some av) (some pv) b k n (some xv)).2 = some xw ∧
      xw.length = n.toNat ∧
      ∀ j : ℕ, j < n.toNat → xw[j]? = some (if j = 0 then
          EDouble.pow ((b - EDouble.fin ((n - 1 : ℤ) : ℝ) * k) / dref av 0)
            (EDouble.fin 1 / dref pv 0)
        else EDouble.pow (k / dref av j) (EDouble.fin 1 / dref pv j)) := by
  have hn' : ¬n ≤ 0 := by omega
  simp only [pk_formula, if_neg hn']
  refine ⟨_, rfl, ?_, ?_⟩
  · rw [pkLoop_length, List.length_set, hx]
  · intro j hj
    by_cases hj0 : j = 0
    · subst hj0
      rw [pkLoop_getElem?, if_neg (by omega),
        List.getElem?_set_self (by omega), if_pos rfl]
    · rw [pkLoop_getElem?,
        if_pos ⟨by omega, by omega, by rw [List.length_set]; omega⟩,
        if_neg hj0]

theorem pk_neg_radicand :
    (pk_formula (some [EDouble.fin 1]) (some [EDouble.fin 2])
      (EDouble.fin (-1)) (EDouble.fin 0) 1 (some [EDouble.fin 0])).2 =
      some [EDouble.nan] := by
  have hm : EDouble.fin (((1 : ℤ) - 1 : ℤ) : ℝ) = EDouble.fin 0 := by norm_num
  have hv : EDouble.pow
      ((EDouble.fin (-1) - EDouble.fin 0 * EDouble.fin 0) /
        dref [EDouble.fin 1] 0)
      (EDouble.fin 1 / dref [EDouble.fin 2] 0) = EDouble.nan := by
    simp only [dref, List.getD_cons_zero, EDouble.fin_mul_fin, mul_zero,
      EDouble.sub_fin_zero]
    rw [EDouble.fin_div_fin _ (one_ne_zero (α := ℝ)),
      EDouble.fin_div_fin _ (two_ne_zero (α := ℝ))]
    norm_num
    exact EDouble.pow_fin_neg_nonint (by norm_num) (by norm_num) not_isInt_half
  simp only [pk_formula, hm, hv]
  norm_num [pkLoop]

/-- C3, counterexample: for the valid input `a = [1]`, `p = [2]`, `b = -1`,
`k = 0`, `n = 1` (all coefficients and exponents nonzero), the solver writes
`x[0] = pow(-1, 1/2) = NaN`, the recomputed sum and the error are NaN, and
`NaN < 1e-10` is false: the round-trip error is NOT strictly below the
tolerance, and `verify_solution` returns 0. -/
theorem c3_round_trip_counterexample :
    verify_solution
        (pk_formula (some [EDouble.fin 1]) (some [EDouble.fin 2])
          (EDouble.fin (-1)) (EDouble.fin 0) 1 (some [EDouble.fin 0])).2
        (some [EDouble.fin 1]) (some [EDouble.fin 2]) (EDouble.fin (-1)) 1
        (some (EDouble.fin 0)) = (0, some EDouble.nan) ∧
    EDouble.ltb EDouble.nan tol = false := by
  constructor
  · rw [pk_neg_radicand]
    have hloop : verifyLoop [EDouble.nan] [EDouble.fin 1] [EDouble.fin 2] 0
        (Int.toNat 1) (EDouble.fin 0) = EDouble.nan := by
      simp only [Int.toNat_one, verifyLoop, dref, List.getD_cons_zero]
      rw [EDouble.pow_nan_base (by simp), EDouble.mul_nan, EDouble.add_nan]
    simp only [verify_solution, hloop, EDouble.nan_sub, EDouble.abs_nan,
      EDouble.ltb_nan_left]
    norm_num
  · rw [EDouble.ltb_nan_left]

/-- C3, amended: for finite inputs with `n >= 1`, non-NULL length-`n` arrays,
all `a[i]` and `p[i]` nonzero AND nonnegative radicands
`(b - (n-1)*k)/a[0] >= 0` and `k/a[i] >= 0` for `1 <= i < n` (a negative
radicand under a fractional exponent reciprocal makes the power NaN and the
round trip fails), verifying the solver's output yields error exactly `0`,
which is strictly below the `1e-10` tolerance, and `verify_solution`
returns 1. -/
theorem c3_round_trip_amended (la lp : List ℝ) (b k : ℝ) (n : ℤ)
    (xv : List EDouble) (e0 : EDouble) (hn : 1 ≤ n)
    (hla : la.length = n.toNat) (hlp : lp.length = n.toNat)
    (hx : xv.length = n.toNat)
    (ha : ∀ i, i < n.toNat → la.getD i 0 ≠ 0)
    (hp : ∀ i, i < n.toNat → lp.getD i 0 ≠ 0)
    (hrad0 : 0 ≤ (b - ((n - 1 : ℤ) : ℝ) * k) / la.getD 0 0)
    (hradi : ∀ i, 1 ≤ i → i < n.toNat → 0 ≤ k / la.getD i 0) :
    (pk_formula (some (la.map EDouble.fin)) (some (lp.map EDouble.fin))
        (EDouble.fin b) (EDouble.fin k) n (some xv)).1 = 0 ∧
    verify_solution
        (pk_formula (some (la.map EDouble.fin)) (some (lp.map EDouble.fin))
          (EDouble.fin b) (EDouble.fin k) n (some xv)).2
        (some (la.map EDouble.fin)) (some (lp.map EDouble.fin)) (EDouble.fin b)
        n (some e0) = (1, some (EDouble.fin 0)) := by
  have hn' : ¬n ≤ 0 := by omega
  have hnt : 1 ≤ n.toNat := by omega
  obtain ⟨xw, hxw2, hxwlen, hxwval⟩ := pk_formula_output (la.map EDouble.fin)
    (lp.map EDouble.fin) (EDouble.fin b) (EDouble.fin k) n xv hn hx
  constructor
  · simp [pk_formula, hn']
  · rw [hxw2]
    have hterm : ∀ j, 0 ≤ j → j < 0 + n.toNat →
        dref (la.map EDouble.fin) j * EDouble.pow (dref xw j)
          (dref (lp.map EDouble.fin) j) =
        EDouble.fin (la.getD j 0 *
          (if j = 0 then (b - ((n - 1 : ℤ) : ℝ) * k) / la.getD 0 0
           else k / la.getD j 0)) := by
      intro j _ hj
      rw [zero_add] at hj
      have hdaj : dref (la.map EDouble.fin) j = EDouble.fin (la.getD j 0) :=
        dref_map_fin (by omega)
      have hdpj : dref (lp.map EDouble.fin) j = EDouble.fin (lp.getD j 0) :=
        dref_map_fin (by omega)
      have hdx := dref_eq_of_getElem? (hxwval j hj)
      by_cases hj0 : j = 0
      · subst hj0
        rw [if_pos rfl] at hdx
        rw [hdx, hdaj, hdpj, EDouble.fin_mul_fin, EDouble.fin_sub_fin,
          EDouble.fin_div_fin _ (ha 0 (by omega)),
          pow_pow_inv_of_nonneg hrad0 (hp 0 (by omega)),
          EDouble.fin_mul_fin, if_pos rfl]
      · rw [if_neg hj0] at hdx
        rw [hdx, hdaj, hdpj, EDouble.fin_div_fin _ (ha j hj),
          pow_pow_inv_of_nonneg (hradi j (by omega) hj) (hp j hj),
          EDouble.fin_mul_fin, if_neg hj0]
    have hsum : verifyLoop xw (la.map EDouble.fin) (lp.map EDouble.fin) 0
        n.toNat (EDouble.fin 0) = EDouble.fin b := by
      rw [verifyLoop_fin xw (la.map EDouble.fin) (lp.map EDouble.fin)
        (fun j => la.getD j 0 *
          (if j = 0 then (b - ((n - 1 : ℤ) : ℝ) * k) / la.getD 0 0
           else k / la.getD j 0)) n.toNat 0 0 hterm]
      congr 1
      simp only [zero_add]
      obtain ⟨m1, hm1⟩ : ∃ m1, n.toNat = m1 + 1 := ⟨n.toNat - 1, by omega⟩
      rw [hm1, Finset.sum_range_succ']
      have hc : ∀ j ∈ Finset.range m1,
          la.getD (j + 1) 0 *
            (if j + 1 = 0 then (b - ((n - 1 : ℤ) : ℝ) * k) / la.getD 0 0
             else k / la.getD (j + 1) 0) = k := by
        intro j hj
        rw [if_neg (Nat.succ_ne_zero j), mul_comm,
          div_mul_cancel₀ _ (ha (j + 1) (by
            have := Finset.mem_range.mp hj
            omega))]
      rw [Finset.sum_congr rfl hc, Finset.sum_const, Finset.card_range,
        nsmul_eq_mul, if_pos rfl, mul_comm (la.getD 0 0),
        div_mul_cancel₀ _ (ha 0 (by omega))]
      have hcast : ((m1 : ℕ) : ℝ) = ((n - 1 : ℤ) : ℝ) := by
        have h1 : (n.toNat : ℤ) = n := Int.toNat_of_nonneg (by omega)
        have h2 : ((m1 : ℕ) : ℤ) = n - 1 := by omega
        exact_mod_cast h2
      rw [hcast]
      ring
    have hlt : EDouble.ltb (EDouble.fin 0) tol = true := by
      simp only [tol, EDouble.ltb_fin_fin]
      exact decide_eq_true (by norm_num)
    simp only [verify_solution, hsum, EDouble.fin_sub_fin, sub_self,
      EDouble.abs_fin, abs_zero, hlt]
    norm_num

theorem c3_round_trip_amended_witness :
    (pk_formula (some (List.map EDouble.fin [1]))
        (some (List.map EDouble.fin [1])) (EDouble.fin 2) (EDouble.fin 0) 1
        (some [EDouble.fin 0])).1 = 0 ∧
    verify_solution
        (pk_formula (some (List.map EDouble.fin [1]))
          (some (List.map EDouble.fin [1])) (EDouble.fin 2) (EDouble.fin 0) 1
          (some [EDouble.fin 0])).2
        (some (List.map EDouble.fin [1])) (some (List.map EDouble.fin [1]))
        (EDouble.fin 2) 1 (some (EDouble.fin 3)) =
      (1, some (EDouble.fin 0)) :=
  c3_round_trip_amended [1] [1] 2 0 1 [EDouble.fin 0] (EDouble.fin 3)
    (by norm_num) rfl rfl rfl
    (by intro i hi; simp [show i = 0 by omega, List.getD_cons_zero])
    (by intro i hi; simp [show i = 0 by omega, List.getD_cons_zero])
    (by norm_num [List.getD_cons_zero])
    (fun i h1 h2 => (by omega : False).elim)
